import Mathlib

/-!
Verification development for the text-to-HTML conversion engine of the
universal-document-converter repository (`server.js`).  JavaScript strings
are modelled as `List Char`; every helper of the engine
(`convertTextToHTML`, `isHeader`, `getHeaderLevel`, `isListItem`,
`escapeHtml`) is translated into an executable Lean definition that follows
the source line by line.
-/

namespace UDC

/-- Whitespace as matched by JavaScript `trim` and the regex class `\s`
(restricted to the characters that can occur in this code path). -/
def ws (c : Char) : Bool :=
  c = ' ' || c = '\t' || c = '\n' || c = '\r' || c = '\x0b' || c = '\x0c'

/-- Remove leading whitespace, as the leading half of JavaScript `trim`. -/
def trimL (l : List Char) : List Char := l.dropWhile ws

/-- Remove trailing whitespace, as the trailing half of JavaScript `trim`. -/
def trimR (l : List Char) : List Char := (l.reverse.dropWhile ws).reverse

/-- JavaScript `String.prototype.trim` on a list of characters. -/
def trim (l : List Char) : List Char := trimR (trimL l)

/-- Prepend a character to the first line of a line list (helper for
`splitLines`). -/
def consHead (c : Char) : List (List Char) → List (List Char)
  | [] => [[c]]
  | l :: ls => (c :: l) :: ls

/-- JavaScript `text.split('\n')` on a list of characters. -/
def splitLines : List Char → List (List Char)
  | [] => [[]]
  | c :: cs => if c = '\n' then [] :: splitLines cs else consHead c (splitLines cs)

/-- Test a predicate on the head of a list (false on the empty list); used to
express unanchored regex tails that only constrain the next character. -/
def headIs (p : Char → Bool) : List Char → Bool
  | [] => false
  | c :: _ => p c

/-- Regex fragment `\s+[A-Z]` as a prefix match: at least one whitespace
character, then (after the greedy whitespace run) an uppercase letter. -/
def wsThenUpper : List Char → Bool
  | [] => false
  | c :: rest => ws c && headIs Char.isUpper (rest.dropWhile ws)

/-- Regex fragment `\s+\d` as a prefix match: at least one whitespace
character, then (after the greedy whitespace run) a digit. -/
def wsThenDigit : List Char → Bool
  | [] => false
  | c :: rest => ws c && headIs Char.isDigit (rest.dropWhile ws)

/-- The pattern `/^[A-Z][A-Z\s]+$/` (ALL CAPS) from `isHeader`. -/
def allCapsPat : List Char → Bool
  | [] => false
  | c :: rest => c.isUpper && !rest.isEmpty && rest.all (fun d => d.isUpper || ws d)

/-- Recursive matcher for `/^[A-Z][a-z]+(\s+[A-Z][a-z]+)*$/` (Title Case)
from `isHeader`: a capitalised word, then whitespace-separated capitalised
words until the end.  The fuel argument only bounds the recursion; it is
initialised with the length of the input, which each recursive call strictly
decreases, so the fuel never runs out. -/
def titleCaseAux : Nat → List Char → Bool
  | fuel + 1, c :: d :: rest =>
      c.isUpper && d.isLower &&
      (match rest.dropWhile Char.isLower with
       | [] => true
       | e :: rest2 => ws e && titleCaseAux fuel (rest2.dropWhile ws))
  | _ + 1, _ => false
  | 0, _ => false

/-- The pattern `/^[A-Z][a-z]+(\s+[A-Z][a-z]+)*$/` (Title Case). -/
def titleCasePat (l : List Char) : Bool := titleCaseAux (l.length + 1) l

/-- The pattern `/^\d+\.\s+[A-Z]/` (numbered sections) from `isHeader`. -/
def numberedPat : List Char → Bool
  | [] => false
  | c :: rest =>
      c.isDigit &&
        (match rest.dropWhile Char.isDigit with
         | '.' :: rest2 => wsThenUpper rest2
         | _ => false)

/-- Membership in the regex class `[IVX]`. -/
def isRomanChar (c : Char) : Bool := c = 'I' || c = 'V' || c = 'X'

/-- The pattern `/^[IVX]+\.\s+[A-Z]/` (Roman numerals) from `isHeader`. -/
def romanPat : List Char → Bool
  | [] => false
  | c :: rest =>
      isRomanChar c &&
        (match rest.dropWhile isRomanChar with
         | '.' :: rest2 => wsThenUpper rest2
         | _ => false)

/-- Match a literal word case-insensitively (each entry is the lower/upper
pair for one letter), returning the rest of the input on success. -/
def ciMatch : List (Char × Char) → List Char → Option (List Char)
  | [], l => some l
  | _ :: _, [] => none
  | (lo, hi) :: ps, c :: cs => if c = lo || c = hi then ciMatch ps cs else none

/-- Letter pairs for the case-insensitive literal `Chapter`. -/
def chapterPairs : List (Char × Char) :=
  [('c', 'C'), ('h', 'H'), ('a', 'A'), ('p', 'P'), ('t', 'T'), ('e', 'E'), ('r', 'R')]

/-- Letter pairs for the case-insensitive literal `Section`. -/
def sectionPairs : List (Char × Char) :=
  [('s', 'S'), ('e', 'E'), ('c', 'C'), ('t', 'T'), ('i', 'I'), ('o', 'O'), ('n', 'N')]

/-- The pattern `/^Chapter\s+\d+/i` from `isHeader`. -/
def chapterPat (l : List Char) : Bool :=
  match ciMatch chapterPairs l with
  | some rest => wsThenDigit rest
  | none => false

/-- The pattern `/^Section\s+\d+/i` from `isHeader`. -/
def sectionPat (l : List Char) : Bool :=
  match ciMatch sectionPairs l with
  | some rest => wsThenDigit rest
  | none => false

/-- `headerPatterns.some(pattern => pattern.test(line))` from `isHeader`. -/
def headerPatterns (l : List Char) : Bool :=
  allCapsPat l || titleCasePat l || numberedPat l || romanPat l ||
    chapterPat l || sectionPat l

/-- `isHeader(line, allLines, currentIndex)` from `server.js`: reject lines
longer than 100 characters, accept a line whose next line is more than twice
as long, otherwise test the structural patterns. -/
def isHeader (line : List Char) (allLines : List (List Char)) (i : Nat) : Bool :=
  if line.length > 100 then false
  else if i < allLines.length - 1 &&
      (trim (allLines.getD (i + 1) [])).length > 2 * line.length then true
  else headerPatterns line

/-- `getHeaderLevel(line)` from `server.js`. -/
def getHeaderLevel (l : List Char) : Nat :=
  if allCapsPat l then 1
  else if numberedPat l then 2
  else if romanPat l then 2
  else if chapterPat l then 1
  else if sectionPat l then 2
  else 3

/-- Membership in the bullet-marker class of `isListItem`.  The source file
contains the literal characters U+201A, U+00C4, U+00A2 (a mojibake rendering
of the bullet U+2022) alongside `-` and `*`. -/
def bulletMarker (c : Char) : Bool :=
  c = '‚' || c = 'Ä' || c = '¢' || c = '-' || c = '*'

/-- The pattern `/^[\s]*[‚Ä¢\-\*]\s+/` (bullet points) from `isListItem`. -/
def bulletPat (l : List Char) : Bool :=
  match l.dropWhile ws with
  | [] => false
  | c :: rest => bulletMarker c && headIs ws rest

/-- The pattern `/^[\s]*\d+\.\s+/` (numbered lists) from `isListItem`. -/
def numListPat (l : List Char) : Bool :=
  match l.dropWhile ws with
  | [] => false
  | c :: rest =>
      c.isDigit &&
        (match rest.dropWhile Char.isDigit with
         | '.' :: rest2 => headIs ws rest2
         | _ => false)

/-- The pattern `/^[\s]*[a-z]\.\s+/` (lettered lists) from `isListItem`. -/
def letterListPat (l : List Char) : Bool :=
  match l.dropWhile ws with
  | [] => false
  | c :: rest =>
      c.isLower &&
        (match rest with
         | '.' :: rest2 => headIs ws rest2
         | _ => false)

/-- `isListItem(line)` from `server.js`. -/
def isListItem (l : List Char) : Bool :=
  bulletPat l || numListPat l || letterListPat l

/-- Membership in the strip class `[\s‚Ä¢\-\*]` of the marker-removal
`replace` call in the list branch of `convertTextToHTML`. -/
def stripChar (c : Char) : Bool := ws c || bulletMarker c

/-- `line.replace(/^[\s‚Ä¢\-\*]+/, '').trim()` from the list branch of
`convertTextToHTML`: the stored text of a list item. -/
def listItemText (l : List Char) : List Char := trim (l.dropWhile stripChar)

/-- The per-character replacement of `escapeHtml`: the five mapped
characters become their character references, everything else is kept. -/
def escChar (c : Char) : List Char :=
  if c = '&' then "&amp;".toList
  else if c = '<' then "&lt;".toList
  else if c = '>' then "&gt;".toList
  else if c = '"' then "&quot;".toList
  else if c = '\'' then "&#039;".toList
  else [c]

/-- `escapeHtml(text)` from `server.js`: the global replacement of
`/[&<>"']/g` by the entity map. -/
def escapeHtml : List Char → List Char
  | [] => []
  | c :: cs => escChar c ++ escapeHtml cs

/-- The mutable state of the loop in `convertTextToHTML`: the accumulated
`html` string and the `inList` / `inParagraph` flags. -/
structure ConvState where
  html : List Char
  inList : Bool
  inParagraph : Bool
deriving DecidableEq

/-- `if (inParagraph) { html += '</p>'; inParagraph = false; }`. -/
def closeP (s : ConvState) : ConvState :=
  if s.inParagraph then
    { s with html := s.html ++ "</p>".toList, inParagraph := false }
  else s

/-- `if (inList) { html += '</ul>'; inList = false; }`. -/
def closeL (s : ConvState) : ConvState :=
  if s.inList then
    { s with html := s.html ++ "</ul>".toList, inList := false }
  else s

/-- One iteration of the loop body of `convertTextToHTML` at index `i`. -/
def convertStep (allLines : List (List Char)) (i : Nat) (s : ConvState) : ConvState :=
  let line := trim (allLines.getD i [])
  if line = [] then closeL (closeP s)
  else if isHeader line allLines i then
    let s1 := closeL (closeP s)
    let lvl := getHeaderLevel line
    { s1 with html := s1.html ++ ('<' :: 'h' :: Nat.toDigits 10 lvl) ++ '>' ::
        escapeHtml line ++ ('<' :: '/' :: 'h' :: Nat.toDigits 10 lvl) ++ ['>'] }
  else if isListItem line then
    let s1 := closeP s
    let s2 := if s1.inList then s1
      else { s1 with html := s1.html ++ "<ul>".toList, inList := true }
    { s2 with html := s2.html ++ "<li>".toList ++ escapeHtml (listItemText line) ++
        "</li>".toList }
  else
    let s1 := if s.inParagraph then s
      else { s with html := s.html ++ "<p>".toList, inParagraph := true }
    { s1 with html := s1.html ++ escapeHtml line ++ [' '] }

/-- Run the loop of `convertTextToHTML` over the suffix `suf` of `allLines`
that starts at index `i`. -/
def convertLoopAux (allLines : List (List Char)) :
    List (List Char) → Nat → ConvState → ConvState
  | [], _, s => s
  | _ :: rest, i, s => convertLoopAux allLines rest (i + 1) (convertStep allLines i s)

/-- The complete `for` loop of `convertTextToHTML`. -/
def convertLoop (allLines : List (List Char)) (s : ConvState) : ConvState :=
  convertLoopAux allLines allLines 0 s

/-- The early-return string of `convertTextToHTML` for empty input. -/
def fallbackNoText : List Char := "<p>No text content found in the PDF.</p>".toList

/-- The final fallback string of `convertTextToHTML` for empty output. -/
def fallbackNoContent : List Char :=
  "<p>No content could be extracted from the PDF.</p>".toList

/-- `text.split('\n').filter(line => line.trim() !== '')`. -/
def filterNonBlank (ls : List (List Char)) : List (List Char) :=
  ls.filter (fun l => !(trim l).isEmpty)

/-- `convertTextToHTML(text)` from `server.js`, assembled from the pieces
above: the empty-input guard, the blank-line filter, the loop, the closing
of open tags, and the `html || fallback` return. -/
def convertTextToHTML (text : List Char) : List Char :=
  if trim text = [] then fallbackNoText
  else
    let lines := splitLines text |> filterNonBlank
    let final := closeL (closeP (convertLoop lines ⟨[], false, false⟩))
    if final.html = [] then fallbackNoContent else final.html

/-- Modelled from the spec: the repository has no markup-stripping routine,
but the round-trip property of the spec re-classifies "the emitted
plain-text content (stripping markup)".  This scanner removes every markup
tag, replacing it by a line break so that the block boundaries of the
emitted markup delimit the recovered plain-text lines.  The flag records
whether the scanner is inside a tag. -/
def stripMarkupAux : Bool → List Char → List Char
  | _, [] => []
  | false, c :: r =>
      if c = '<' then stripMarkupAux true r else c :: stripMarkupAux false r
  | true, c :: r =>
      if c = '>' then '\n' :: stripMarkupAux false r else stripMarkupAux true r

/-- Modelled from the spec: strip markup from emitted output, recovering
plain-text content with tags turned into line breaks. -/
def stripMarkup (l : List Char) : List Char := stripMarkupAux false l

/-- The markup emitted for one heading line by the header branch of
`convertTextToHTML` (proof-support abbreviation). -/
def headerHtml (l : List Char) : List Char :=
  ('<' :: 'h' :: Nat.toDigits 10 (getHeaderLevel (trim l))) ++ '>' ::
    escapeHtml (trim l) ++
    ('<' :: '/' :: 'h' :: Nat.toDigits 10 (getHeaderLevel (trim l))) ++ ['>']

/-- The markup emitted for a run of heading lines (proof-support). -/
def headersHtml : List (List Char) → List Char
  | [] => []
  | l :: ls => headerHtml l ++ headersHtml ls

/-- The plain text recovered by `stripMarkup` from a run of emitted heading
elements (proof-support). -/
def nlJoin : List (List Char) → List Char
  | [] => []
  | l :: ls => '\n' :: (trim l ++ '\n' :: nlJoin ls)

end UDC

namespace UDC

example : allCapsPat "CHAPTER OVERVIEW".toList = true := by decide

example : titleCasePat "Hello World".toList = true := by decide

example : titleCasePat "Hello world".toList = false := by decide

example : numberedPat "1. Introduction".toList = true := by decide

example : chapterPat "chapter 12".toList = true := by decide

example : sectionPat "Section 2".toList = true := by decide

example : isListItem "- a".toList = true := by decide

example : isListItem "• First point".toList = false := by decide

example : listItemText "1. Apple".toList = "1. Apple".toList := by decide

example : escapeHtml "A & B < C".toList = "A &amp; B &lt; C".toList := by decide

example : convertTextToHTML "- a\nb".toList =
    "<ul><li>a</li><p>b </p></ul>".toList := by decide

example : convertTextToHTML "a\n\nb".toList = "<p>a b </p>".toList := by decide

example : convertTextToHTML "".toList = fallbackNoText := by decide

example : convertTextToHTML "  \n\t\n ".toList = fallbackNoText := by decide

example : convertTextToHTML "A & B < C".toList =
    "<p>A &amp; B &lt; C </p>".toList := by decide

example : convertTextToHTML "A\nB".toList = "<p>A B </p>".toList := by decide

example : convertTextToHTML "CHAPTER OVERVIEW\nSome text".toList =
    "<h1>CHAPTER OVERVIEW</h1><p>Some text </p>".toList := by decide

lemma mem_of_mem_dropWhile {p : Char → Bool} {l : List Char} {c : Char}
    (h : c ∈ l.dropWhile p) : c ∈ l :=
  (List.dropWhile_sublist p).mem h

lemma ws_of_mem_takeWhile {p : Char → Bool} {l : List Char} {c : Char}
    (h : c ∈ l.takeWhile p) : p c = true :=
  List.mem_takeWhile_imp h

lemma trimR_eq_nil_iff (l : List Char) : trimR l = [] ↔ ∀ c ∈ l, ws c = true := by
  unfold trimR
  rw [List.reverse_eq_nil_iff, List.dropWhile_eq_nil_iff]
  constructor
  · intro h c hc
    exact h c (List.mem_reverse.2 hc)
  · intro h c hc
    exact h c (List.mem_reverse.1 hc)

lemma dropWhile_all_iff (p : Char → Bool) (l : List Char) :
    (∀ c ∈ l.dropWhile p, p c = true) ↔ ∀ c ∈ l, p c = true := by
  constructor
  · intro h c hc
    rcases List.mem_append.1 ((List.takeWhile_append_dropWhile (p := p) (l := l)) ▸ hc) with
      h1 | h1
    · exact ws_of_mem_takeWhile h1
    · exact h c h1
  · intro h c hc
    exact h c (mem_of_mem_dropWhile hc)

lemma trim_eq_nil_iff (l : List Char) : trim l = [] ↔ ∀ c ∈ l, ws c = true := by
  unfold trim trimL
  rw [trimR_eq_nil_iff]
  exact dropWhile_all_iff ws l

lemma splitLines_ne_nil (t : List Char) : splitLines t ≠ [] := by
  induction t with
  | nil => simp [splitLines]
  | cons c cs ih =>
    by_cases h : c = '\n'
    · simp [splitLines, h]
    · simp only [splitLines, h, if_false]
      cases hs : splitLines cs with
      | nil => exact absurd hs ih
      | cons l ls => simp [consHead]

lemma mem_of_mem_splitLines {t : List Char} {l : List Char} {c : Char}
    (hl : l ∈ splitLines t) (hc : c ∈ l) : c ∈ t := by
  induction t generalizing l with
  | nil =>
    simp [splitLines] at hl
    subst hl
    simp at hc
  | cons d cs ih =>
    by_cases h : d = '\n'
    · simp only [splitLines, h, if_true] at hl
      rcases List.mem_cons.1 hl with h1 | h1
      · subst h1; simp at hc
      · exact List.mem_cons_of_mem _ (ih h1 hc)
    · simp only [splitLines, h, if_false] at hl
      cases hs : splitLines cs with
      | nil => exact absurd hs (splitLines_ne_nil cs)
      | cons l0 ls =>
        rw [hs] at hl
        simp only [consHead] at hl
        rcases List.mem_cons.1 hl with h1 | h1
        · subst h1
          rcases List.mem_cons.1 hc with h2 | h2
          · exact h2 ▸ List.mem_cons_self d cs
          · exact List.mem_cons_of_mem _ (ih (hs ▸ List.mem_cons_self l0 ls) h2)
        · exact List.mem_cons_of_mem _ (ih (hs ▸ List.mem_cons_of_mem l0 h1) hc)

lemma mem_splitLines_cover {t : List Char} {c : Char} (hc : c ∈ t) :
    c = '\n' ∨ ∃ l ∈ splitLines t, c ∈ l := by
  induction t with
  | nil => simp at hc
  | cons d cs ih =>
    by_cases h : d = '\n'
    · rcases List.mem_cons.1 hc with h1 | h1
      · exact Or.inl (h1.trans h)
      · rcases ih h1 with h2 | ⟨l, hl, hcl⟩
        · exact Or.inl h2
        · exact Or.inr ⟨l, by simp [splitLines, h, hl], hcl⟩
    · simp only [splitLines, h, if_false]
      cases hs : splitLines cs with
      | nil => exact absurd hs (splitLines_ne_nil cs)
      | cons l0 ls =>
        rcases List.mem_cons.1 hc with h1 | h1
        · exact Or.inr ⟨d :: l0, by simp [consHead], by simp [h1]⟩
        · rcases ih h1 with h2 | ⟨l, hl, hcl⟩
          · exact Or.inl h2
          · rw [hs] at hl
            rcases List.mem_cons.1 hl with h3 | h3
            · exact Or.inr ⟨d :: l0, by simp [consHead], h3 ▸ List.mem_cons_of_mem d hcl⟩
            · exact Or.inr ⟨l, by simp [consHead, h3], hcl⟩

lemma trim_eq_nil_iff_filter (t : List Char) :
    trim t = [] ↔ filterNonBlank (splitLines t) = [] := by
  rw [trim_eq_nil_iff, filterNonBlank, List.filter_eq_nil_iff]
  constructor
  · intro h l hl
    have : trim l = [] := (trim_eq_nil_iff l).2 fun c hc => h c (mem_of_mem_splitLines hl hc)
    simp [this]
  · intro h c hc
    rcases mem_splitLines_cover hc with h1 | ⟨l, hl, hcl⟩
    · subst h1; decide
    · have := h l hl
      simp only [Bool.not_eq_true', Bool.not_eq_false] at this
      have h2 : trim l = [] := by
        rcases List.isEmpty_iff.1 this with h3
        exact h3
      exact (trim_eq_nil_iff l).1 h2 c hcl

lemma head?_dropWhile_not (p : Char → Bool) (l : List Char) {c : Char}
    (hc : (l.dropWhile p).head? = some c) : p c = false := by
  induction l with
  | nil => simp at hc
  | cons a t ih =>
    by_cases h : p a = true
    · rw [List.dropWhile_cons, if_pos h] at hc
      exact ih hc
    · rw [List.dropWhile_cons, if_neg h] at hc
      cases hc
      simpa using h

lemma dropWhile_idem (p : Char → Bool) (l : List Char) :
    (l.dropWhile p).dropWhile p = l.dropWhile p := by
  cases hd : l.dropWhile p with
  | nil => rfl
  | cons c z =>
    have := head?_dropWhile_not p l (c := c) (by rw [hd]; rfl)
    rw [List.dropWhile_cons, if_neg (by simp [this])]

lemma trimR_append (l : List Char) :
    l = trimR l ++ (l.reverse.takeWhile ws).reverse := by
  unfold trimR
  conv_lhs => rw [← l.reverse_reverse,
    ← List.takeWhile_append_dropWhile (p := ws) (l := l.reverse)]
  rw [List.reverse_append]

lemma trimL_trim (l : List Char) : trimL (trim l) = trim l := by
  unfold trim
  cases htr : trimR (trimL l) with
  | nil => rfl
  | cons c z =>
    have happ := trimR_append (trimL l)
    rw [htr] at happ
    have hhead : (List.dropWhile ws l).head? = some c := by
      unfold trimL at happ
      rw [happ]
      rfl
    have hws := head?_dropWhile_not ws l hhead
    unfold trimL
    rw [List.dropWhile_cons, if_neg (by simp [hws])]

lemma trimR_idem (l : List Char) : trimR (trimR l) = trimR l := by
  unfold trimR
  rw [List.reverse_reverse, dropWhile_idem]

lemma trim_idem (l : List Char) : trim (trim l) = trim l := by
  conv_lhs => rw [trim, trimL_trim]
  rw [trim, trimR_idem]

lemma mem_trim {l : List Char} {c : Char} (h : c ∈ trim l) : c ∈ l := by
  unfold trim trimR trimL at h
  rw [List.mem_reverse] at h
  have h2 := mem_of_mem_dropWhile h
  rw [List.mem_reverse] at h2
  exact mem_of_mem_dropWhile h2

lemma getD_of_drop {α : Type} (L : List α) (i : Nat) {x : α} {xs : List α}
    (d : α) (h : L.drop i = x :: xs) : L.getD i d = x := by
  induction L generalizing i with
  | nil => simp at h
  | cons a t ih =>
    cases i with
    | zero =>
      simp only [List.drop_zero] at h
      cases h
      rfl
    | succ j =>
      simp only [List.drop_succ_cons] at h
      simpa [List.getD] using ih j h

lemma drop_succ_of_drop {α : Type} (L : List α) (i : Nat) {x : α} {xs : List α}
    (h : L.drop i = x :: xs) : L.drop (i + 1) = xs := by
  induction L generalizing i with
  | nil => simp at h
  | cons a t ih =>
    cases i with
    | zero =>
      simp only [List.drop_zero] at h
      cases h
      simp
    | succ j =>
      simp only [List.drop_succ_cons] at h
      simpa [List.drop_succ_cons] using ih j h

lemma mem_of_drop_eq_cons {α : Type} {L : List α} {i : Nat} {x : α} {xs : List α}
    (h : L.drop i = x :: xs) : x ∈ L := by
  induction L generalizing i with
  | nil => simp at h
  | cons a t ih =>
    cases i with
    | zero =>
      simp only [List.drop_zero] at h
      cases h
      exact List.mem_cons_self _ _
    | succ j =>
      simp only [List.drop_succ_cons] at h
      exact List.mem_cons_of_mem a (ih h)

lemma chapterPat_head {l : List Char} (h : chapterPat l = true) :
    ∃ cs, l = 'c' :: cs ∨ l = 'C' :: cs := by
  cases l with
  | nil => simp [chapterPat, chapterPairs, ciMatch] at h
  | cons c cs =>
    refine ⟨cs, ?_⟩
    by_cases h1 : c = 'c'
    · exact Or.inl (by rw [h1])
    by_cases h2 : c = 'C'
    · exact Or.inr (by rw [h2])
    exfalso
    simp [chapterPat, chapterPairs, ciMatch, h1, h2] at h

lemma numberedPat_false_of_head {c : Char} (cs : List Char) (h : c.isDigit = false) :
    numberedPat (c :: cs) = false := by
  simp [numberedPat, h]

lemma romanPat_false_of_head {c : Char} (cs : List Char) (h : isRomanChar c = false) :
    romanPat (c :: cs) = false := by
  simp [romanPat, h]

lemma escapeHtml_of_id {s : List Char} (h : ∀ c ∈ s, escChar c = [c]) :
    escapeHtml s = s := by
  induction s with
  | nil => rfl
  | cons c cs ih =>
    rw [escapeHtml, h c (by simp), ih fun d hd => h d (by simp [hd])]
    rfl

lemma not_mem_lt_of_id {s : List Char} (h : ∀ c ∈ s, escChar c = [c]) :
    '<' ∉ s := by
  intro hm
  have h2 := h '<' hm
  rw [show escChar '<' = "&lt;".toList from by decide] at h2
  exact absurd h2 (by decide)

lemma not_mem_gt_of_id {s : List Char} (h : ∀ c ∈ s, escChar c = [c]) :
    '>' ∉ s := by
  intro hm
  have h2 := h '>' hm
  rw [show escChar '>' = "&gt;".toList from by decide] at h2
  exact absurd h2 (by decide)

lemma mem_splitLines_no_newline {t l : List Char} (hl : l ∈ splitLines t) :
    '\n' ∉ l := by
  intro hc
  induction t generalizing l with
  | nil =>
    simp [splitLines] at hl
    subst hl
    simp at hc
  | cons d cs ih =>
    by_cases h : d = '\n'
    · simp only [splitLines, h, if_true] at hl
      rcases List.mem_cons.1 hl with h1 | h1
      · subst h1; simp at hc
      · exact ih h1 hc
    · simp only [splitLines, h, if_false] at hl
      cases hs : splitLines cs with
      | nil => exact absurd hs (splitLines_ne_nil cs)
      | cons l0 ls =>
        rw [hs] at hl
        simp only [consHead] at hl
        rcases List.mem_cons.1 hl with h1 | h1
        · subst h1
          rcases List.mem_cons.1 hc with h2 | h2
          · exact h (h2.symm)
          · exact ih (hs ▸ List.mem_cons_self l0 ls) h2
        · exact ih (hs ▸ List.mem_cons_of_mem l0 h1) hc

lemma stripAux_false_text {t r : List Char} (h : '<' ∉ t) :
    stripMarkupAux false (t ++ r) = t ++ stripMarkupAux false r := by
  induction t with
  | nil => rfl
  | cons c ts ih =>
    have hc : ¬(c = '<') := fun hc => h (by simp [hc])
    rw [List.cons_append, stripMarkupAux, if_neg hc,
      ih fun hm => h (List.mem_cons_of_mem c hm)]
    rfl

lemma stripAux_true_tag {inner r : List Char} (h : '>' ∉ inner) :
    stripMarkupAux true (inner ++ '>' :: r) = '\n' :: stripMarkupAux false r := by
  induction inner with
  | nil => simp [stripMarkupAux]
  | cons c ts ih =>
    have hc : ¬(c = '>') := fun hc => h (by simp [hc])
    rw [List.cons_append, stripMarkupAux, if_neg hc,
      ih fun hm => h (List.mem_cons_of_mem c hm)]

lemma getHeaderLevel_cases (l : List Char) :
    getHeaderLevel l = 1 ∨ getHeaderLevel l = 2 ∨ getHeaderLevel l = 3 := by
  unfold getHeaderLevel
  split
  · exact Or.inl rfl
  split
  · exact Or.inr (Or.inl rfl)
  split
  · exact Or.inr (Or.inl rfl)
  split
  · exact Or.inl rfl
  split
  · exact Or.inr (Or.inl rfl)
  · exact Or.inr (Or.inr rfl)

lemma strip_header_block {lvl : Nat} (hlvl : lvl = 1 ∨ lvl = 2 ∨ lvl = 3)
    {t : List Char} (r : List Char) (h1 : '<' ∉ t) :
    stripMarkupAux false ((('<' :: 'h' :: Nat.toDigits 10 lvl) ++ '>' :: t ++
        ('<' :: '/' :: 'h' :: Nat.toDigits 10 lvl) ++ ['>']) ++ r) =
      '\n' :: (t ++ '\n' :: stripMarkupAux false r) := by
  have key : ∀ d : Char, d ≠ '>' → d ≠ '<' →
      stripMarkupAux false ((('<' :: 'h' :: [d]) ++ '>' :: t ++
          ('<' :: '/' :: 'h' :: [d]) ++ ['>']) ++ r) =
        '\n' :: (t ++ '\n' :: stripMarkupAux false r) := by
    intro d hd1 hd2
    have e1 : (('<' :: 'h' :: [d]) ++ '>' :: t ++ ('<' :: '/' :: 'h' :: [d]) ++
        ['>']) ++ r = '<' :: (('h' :: [d]) ++ '>' ::
          (t ++ ('<' :: ('/' :: 'h' :: [d] ++ '>' :: r)))) := by
      simp
    rw [e1, stripMarkupAux, if_pos rfl,
      stripAux_true_tag (by simp [Ne.symm hd1]),
      stripAux_false_text h1, stripMarkupAux, if_pos rfl,
      stripAux_true_tag (by simp [Ne.symm hd1])]
  rcases hlvl with h | h | h <;> subst h
  · exact key '1' (by decide) (by decide)
  · exact key '2' (by decide) (by decide)
  · exact key '3' (by decide) (by decide)

lemma strip_headersHtml {ls : List (List Char)}
    (H : ∀ l ∈ ls, (∀ c ∈ trim l, escChar c = [c])) :
    stripMarkup (headersHtml ls) = nlJoin ls := by
  induction ls with
  | nil => rfl
  | cons l rest ih =>
    have hid := H l (List.mem_cons_self l rest)
    have hesc : escapeHtml (trim l) = trim l := escapeHtml_of_id hid
    have h1 : '<' ∉ trim l := not_mem_lt_of_id hid
    rw [stripMarkup, headersHtml, headerHtml, hesc]
    rw [strip_header_block (getHeaderLevel_cases (trim l)) (headersHtml rest) h1]
    rw [nlJoin, ← ih fun l2 hl2 => H l2 (List.mem_cons_of_mem l hl2)]
    rfl

lemma isHeader_of_patterns {line : List Char} (allLines : List (List Char)) (i : Nat)
    (hp : headerPatterns line = true) (hlen : line.length ≤ 100) :
    isHeader line allLines i = true := by
  rw [isHeader, if_neg (by omega)]
  split
  · rfl
  · exact hp

lemma convertLoopAux_headers (allLines : List (List Char))
    (H : ∀ l ∈ allLines, trim l ≠ [] ∧ headerPatterns (trim l) = true ∧
      (trim l).length ≤ 100) :
    ∀ (suf : List (List Char)) (i : Nat), allLines.drop i = suf →
      ∀ h0 : List Char,
        convertLoopAux allLines suf i ⟨h0, false, false⟩ =
          ⟨h0 ++ headersHtml suf, false, false⟩ := by
  intro suf
  induction suf with
  | nil =>
    intro i _ h0
    simp [convertLoopAux, headersHtml]
  | cons l suf2 ih =>
    intro i hi h0
    obtain ⟨hnb, hp, hlen⟩ := H l (mem_of_drop_eq_cons hi)
    have hget : allLines.getD i [] = l := getD_of_drop allLines i [] hi
    have hstep : convertStep allLines i ⟨h0, false, false⟩ =
        ⟨h0 ++ headerHtml l, false, false⟩ := by
      simp only [convertStep, hget]
      rw [if_neg hnb, isHeader_of_patterns allLines i hp hlen]
      simp [closeP, closeL, headerHtml]
    rw [convertLoopAux, hstep, ih (i + 1) (drop_succ_of_drop allLines i hi) _]
    simp [headersHtml]

lemma headersHtml_ne_nil {ls : List (List Char)} (h : ls ≠ []) :
    headersHtml ls ≠ [] := by
  cases ls with
  | nil => exact absurd rfl h
  | cons l r => simp [headersHtml, headerHtml]

lemma convertTextToHTML_headers (t : List Char) (hnb : trim t ≠ [])
    (H : ∀ l ∈ filterNonBlank (splitLines t), trim l ≠ [] ∧
      headerPatterns (trim l) = true ∧ (trim l).length ≤ 100) :
    convertTextToHTML t = headersHtml (filterNonBlank (splitLines t)) := by
  have hne : filterNonBlank (splitLines t) ≠ [] := by
    intro h0
    exact hnb ((trim_eq_nil_iff_filter t).2 h0)
  have hloop := convertLoopAux_headers (filterNonBlank (splitLines t)) H
    (filterNonBlank (splitLines t)) 0 (by simp) []
  simp only [convertTextToHTML, convertLoop]
  rw [if_neg hnb, hloop]
  simp [closeP, closeL]
  intro h0
  exact absurd h0 (headersHtml_ne_nil hne)

lemma splitLines_append_newline {t r : List Char} (h : '\n' ∉ t) :
    splitLines (t ++ '\n' :: r) = t :: splitLines r := by
  induction t with
  | nil => simp [splitLines]
  | cons c ts ih =>
    have hc : ¬(c = '\n') := fun hc => h (by simp [hc])
    rw [List.cons_append]
    simp only [splitLines, if_neg hc,
      ih fun hm => h (List.mem_cons_of_mem c hm)]
    rfl

lemma filter_splitLines_nlJoin (ls : List (List Char))
    (H : ∀ l ∈ ls, '\n' ∉ trim l ∧ trim l ≠ []) :
    filterNonBlank (splitLines (nlJoin ls)) = ls.map trim := by
  induction ls with
  | nil => rfl
  | cons l r ih =>
    obtain ⟨hnl, hne⟩ := H l (List.mem_cons_self l r)
    have hsplit : splitLines (nlJoin (l :: r)) =
        [] :: (trim l :: splitLines (nlJoin r)) := by
      rw [nlJoin]
      rw [show splitLines ('\n' :: (trim l ++ '\n' :: nlJoin r)) =
          [] :: splitLines (trim l ++ '\n' :: nlJoin r) from by simp [splitLines]]
      rw [splitLines_append_newline hnl]
    have hblank : (!(trim ([] : List Char)).isEmpty) = false := by decide
    have hkeep : (!(trim (trim l)).isEmpty) = true := by
      rw [trim_idem]
      simpa [List.isEmpty_iff] using hne
    rw [hsplit]
    simp only [filterNonBlank, List.filter_cons, hblank, hkeep]
    simp only [if_false, if_true, List.map_cons]
    exact congrArg (trim l :: ·) (ih fun l2 hl2 => H l2 (List.mem_cons_of_mem l hl2))

lemma headersHtml_map_trim (ls : List (List Char)) :
    headersHtml (ls.map trim) = headersHtml ls := by
  induction ls with
  | nil => rfl
  | cons l r ih =>
    rw [List.map_cons, headersHtml, headersHtml, ih]
    rw [headerHtml, headerHtml, trim_idem]

/-- C1: on the input `"- a\nb"` (a list item directly followed by paragraph
text, no blank line) the code does NOT close the open list before opening
the paragraph: the paragraph element is emitted inside the still-open list
element, which is only closed at the end of the input.  This evaluates the
code at the failing input. -/
theorem listThenParagraphKeepsListOpen :
    convertTextToHTML "- a\nb".toList = "<ul><li>a</li><p>b </p></ul>".toList := by
  decide

/-- C2: the mutual-exclusion invariant fails.  After processing the list
item `"- x"` and the paragraph line `"y"`, the loop state of
`convertTextToHTML` has BOTH `inList` and `inParagraph` set, so both
containers are open at once. -/
theorem bothContainersOpenState :
    (convertLoop (filterNonBlank (splitLines "- x\ny".toList))
        ⟨[], false, false⟩).inList = true ∧
      (convertLoop (filterNonBlank (splitLines "- x\ny".toList))
        ⟨[], false, false⟩).inParagraph = true := by
  decide

/-- C3: a blank line between two paragraph lines does NOT produce two
separate paragraphs: blank lines are filtered out before the loop, so
`"a\n\nb"` yields the same single merged paragraph as `"a\nb"`. -/
theorem blankLineDoesNotSeparateParagraphs :
    convertTextToHTML "a\n\nb".toList = "<p>a b </p>".toList ∧
      convertTextToHTML "a\nb".toList = convertTextToHTML "a\n\nb".toList := by
  decide

/-- C4 counterexample: the line `"1. Apple"` is classified as a list item,
but its stored text keeps the `"1. "` marker (the strip class only removes
whitespace, bullets, dashes and asterisks); and the line `"• First point"`
(bullet U+2022) is not classified as a list item at all, because the
character class in the source contains the mojibake sequence `‚Ä¢` rather
than the bullet `•`. -/
theorem numberedMarkerNotStripped :
    isListItem "1. Apple".toList = true ∧
      listItemText "1. Apple".toList = "1. Apple".toList ∧
      isListItem "• First point".toList = false := by
  decide

/-- C4 amended: a line starting with a character of the code's bullet-marker
class followed by a space is a list item and has that marker (and the
following whitespace) stripped from its stored text; a line whose first
character is outside the strip class keeps its entire text (so numbered and
lettered markers are retained); the bullet U+2022 is not in the marker
class, so `"• First point"` is not a list item. -/
theorem listItemMarkerStripping :
    (∀ (m : Char) (rest : List Char), bulletMarker m = true →
      (∀ c ∈ rest.head?, stripChar c = false) →
      isListItem (m :: ' ' :: rest) = true ∧
        listItemText (m :: ' ' :: rest) = trim rest) ∧
    (∀ (c : Char) (l : List Char), stripChar c = false →
      listItemText (c :: l) = trim (c :: l)) ∧
    isListItem "• First point".toList = false := by
  refine ⟨?_, ?_, by decide⟩
  · intro m rest hm hr
    have hw : ws m = false := by
      simp only [bulletMarker, Bool.or_eq_true, decide_eq_true_eq] at hm
      rcases hm with (((h | h) | h) | h) | h <;> subst h <;> decide
    have hsm : stripChar m = true := by simp [stripChar, hm]
    have hsp : stripChar ' ' = true := by decide
    constructor
    · have hws : ws ' ' = true := by decide
      simp [isListItem, bulletPat, List.dropWhile_cons, hw, hm, headIs, hws]
    · simp only [listItemText, List.dropWhile_cons, hsm, hsp, if_true]
      cases rest with
      | nil => rfl
      | cons c r =>
        have hc : stripChar c = false := hr c (by simp)
        simp [List.dropWhile_cons, hc]
  · intro c l hc
    simp [listItemText, List.dropWhile_cons, hc]

/-- C4 amended, witness: the dash bullet `"- First point"` is a list item
and is stored with the marker stripped. -/
theorem listItemMarkerStrippingWitness :
    isListItem ('-' :: ' ' :: "First point".toList) = true ∧
      listItemText ('-' :: ' ' :: "First point".toList) = trim "First point".toList :=
  listItemMarkerStripping.1 '-' "First point".toList (by decide) (by decide)

/-- C5: a line longer than 100 characters is never classified as a heading,
whatever the surrounding lines are: the length gate is checked first in
`isHeader`. -/
theorem longLineNeverHeading (line : List Char) (allLines : List (List Char))
    (i : Nat) (h : 100 < line.length) : isHeader line allLines i = false := by
  simp [isHeader, h]

/-- C5 witness: a concrete 101-character line is rejected. -/
theorem longLineNeverHeadingWitness :
    isHeader (List.replicate 101 'A') [] 0 = false :=
  longLineNeverHeading (List.replicate 101 'A') [] 0 (by decide)

/-- C7: the engine is total — it always produces a non-empty markup string —
and on empty input (or input consisting only of blank lines) it returns
exactly the fallback paragraph of the empty-input guard. -/
theorem engineTotalWithFallback :
    (∀ t : List Char, 0 < (convertTextToHTML t).length) ∧
      convertTextToHTML [] = fallbackNoText ∧
      convertTextToHTML "  \n\t\n ".toList = fallbackNoText := by
  refine ⟨?_, by decide, by decide⟩
  intro t
  by_cases h : trim t = []
  · rw [convertTextToHTML, if_pos h]; decide
  · simp only [convertTextToHTML, if_neg h]
    split
    · decide
    · rename_i h2
      exact List.length_pos.2 h2

/-- C6: level assignment follows the stated precedence: the ALL-CAPS and
`Chapter` patterns give level 1 and win over the numbered, Roman and
`Section` patterns, which give level 2; when none of the five level
patterns matches (in particular when a line is a heading only through the
length/density rule) the level is 3.  `"CHAPTER OVERVIEW"` gets level 1 and
`"1. Introduction"` gets level 2. -/
theorem headerLevelPrecedence (line : List Char) :
    ((allCapsPat line = true ∨ chapterPat line = true) → getHeaderLevel line = 1) ∧
    (allCapsPat line = false → chapterPat line = false →
      (numberedPat line = true ∨ romanPat line = true ∨ sectionPat line = true) →
      getHeaderLevel line = 2) ∧
    (allCapsPat line = false → numberedPat line = false → romanPat line = false →
      chapterPat line = false → sectionPat line = false →
      getHeaderLevel line = 3) ∧
    getHeaderLevel "CHAPTER OVERVIEW".toList = 1 ∧
    getHeaderLevel "1. Introduction".toList = 2 := by
  refine ⟨?_, ?_, ?_, by decide, by decide⟩
  · intro h
    by_cases hac : allCapsPat line = true
    · simp [getHeaderLevel, hac]
    · have hch : chapterPat line = true := by
        rcases h with h | h
        · exact absurd h hac
        · exact h
      have hac2 : allCapsPat line = false := by simpa using hac
      rcases chapterPat_head hch with ⟨cs, hl | hl⟩ <;> subst hl
      · have hnum := numberedPat_false_of_head (c := 'c') cs (by decide)
        have hrom := romanPat_false_of_head (c := 'c') cs (by decide)
        simp [getHeaderLevel, hac2, hnum, hrom, hch]
      · have hnum := numberedPat_false_of_head (c := 'C') cs (by decide)
        have hrom := romanPat_false_of_head (c := 'C') cs (by decide)
        simp [getHeaderLevel, hac2, hnum, hrom, hch]
  · intro hac hch hdis
    rcases hdis with h | h | h
    · simp [getHeaderLevel, hac, h]
    · by_cases hn : numberedPat line = true
      · simp [getHeaderLevel, hac, hn]
      · have hn2 : numberedPat line = false := by simpa using hn
        simp [getHeaderLevel, hac, hn2, h]
    · by_cases hn : numberedPat line = true
      · simp [getHeaderLevel, hac, hn]
      · have hn2 : numberedPat line = false := by simpa using hn
        by_cases hr : romanPat line = true
        · simp [getHeaderLevel, hac, hn2, hr]
        · have hr2 : romanPat line = false := by simpa using hr
          simp [getHeaderLevel, hac, hn2, hr2, hch, h]
  · intro h1 h2 h3 h4 h5
    simp [getHeaderLevel, h1, h2, h3, h4, h5]

/-- C6 witness: the ALL-CAPS line `"HELLO WORLD"` receives level 1. -/
theorem headerLevelPrecedenceWitness : getHeaderLevel "HELLO WORLD".toList = 1 :=
  (headerLevelPrecedence "HELLO WORLD".toList).1 (Or.inl (by decide))

/-- C8: the escaping contract of `escapeHtml`: a string without the five
mapped characters is returned unchanged; an occurrence of any character is
replaced in place by its image under the per-character map; the five mapped
characters go to their character references and every other character is
kept as itself; and in the full pipeline the line `"A & B < C"` appears as
`"A &amp; B &lt; C"` inside an unescaped paragraph element. -/
theorem escapingContract :
    (∀ s : List Char, (∀ c ∈ s, escChar c = [c]) → escapeHtml s = s) ∧
    (∀ (s1 s2 : List Char) (c : Char),
      escapeHtml (s1 ++ c :: s2) = escapeHtml s1 ++ escChar c ++ escapeHtml s2) ∧
    (escChar '&' = "&amp;".toList ∧ escChar '<' = "&lt;".toList ∧
      escChar '>' = "&gt;".toList ∧ escChar '"' = "&quot;".toList ∧
      escChar '\'' = "&#039;".toList) ∧
    (∀ c : Char, c ≠ '&' → c ≠ '<' → c ≠ '>' → c ≠ '"' → c ≠ '\'' →
      escChar c = [c]) ∧
    convertTextToHTML "A & B < C".toList = "<p>A &amp; B &lt; C </p>".toList := by
  refine ⟨?_, ?_, by decide, ?_, by decide⟩
  · intro s h
    induction s with
    | nil => rfl
    | cons c cs ih =>
      rw [escapeHtml, h c (by simp), ih fun d hd => h d (by simp [hd])]
      rfl
  · intro s1 s2 c
    induction s1 with
    | nil => simp [escapeHtml]
    | cons d ds ih => simp [escapeHtml, ih]
  · intro c h1 h2 h3 h4 h5
    simp [escChar, h1, h2, h3, h4, h5]

/-- C8 witness: a plain string passes through `escapeHtml` unchanged. -/
theorem escapingContractWitness : escapeHtml "ab".toList = "ab".toList :=
  escapingContract.1 "ab".toList (by decide)

/-- C9 counterexample: round-trip idempotence fails on the input `"A\nB"`
(which needs no escaping).  The first pass merges the two lines into one
paragraph; stripping the markup and re-classifying turns the merged text
`"A B"` into an ALL-CAPS level-1 heading, so the block structure changes
from a paragraph to a heading. -/
theorem roundTripChangesStructure :
    convertTextToHTML "A\nB".toList = "<p>A B </p>".toList ∧
      convertTextToHTML (stripMarkup (convertTextToHTML "A\nB".toList)) =
        "<h1>A B</h1>".toList := by
  decide

/-- C9 amended: round-trip idempotence does hold for inputs whose non-blank
lines each match a structural heading pattern (within the 100-character
bound and with no characters requiring escaping): emitting, stripping the
markup and re-converting reproduces the identical markup. -/
theorem roundTripForHeadingInputs (text : List Char)
    (hnb : trim text ≠ [])
    (hall : ∀ l ∈ filterNonBlank (splitLines text),
      headerPatterns (trim l) = true ∧ (trim l).length ≤ 100 ∧
        ∀ c ∈ trim l, escChar c = [c]) :
    convertTextToHTML (stripMarkup (convertTextToHTML text)) =
      convertTextToHTML text := by
  have Hgood : ∀ l ∈ filterNonBlank (splitLines text), trim l ≠ [] ∧
      headerPatterns (trim l) = true ∧ (trim l).length ≤ 100 := by
    intro l hl
    have hmem := List.mem_filter.1 hl
    refine ⟨?_, (hall l hl).1, (hall l hl).2.1⟩
    intro h0
    have h1 := hmem.2
    rw [h0] at h1
    simp at h1
  have hpass1 := convertTextToHTML_headers text hnb Hgood
  have hstrip : stripMarkup (convertTextToHTML text) =
      nlJoin (filterNonBlank (splitLines text)) := by
    rw [hpass1]
    exact strip_headersHtml fun l hl => (hall l hl).2.2
  have hnl : ∀ l ∈ filterNonBlank (splitLines text), '\n' ∉ trim l := by
    intro l hl hmem
    exact mem_splitLines_no_newline (List.mem_filter.1 hl).1 (mem_trim hmem)
  have hlines2 :
      filterNonBlank (splitLines (nlJoin (filterNonBlank (splitLines text)))) =
        (filterNonBlank (splitLines text)).map trim :=
    filter_splitLines_nlJoin _ fun l hl => ⟨hnl l hl, (Hgood l hl).1⟩
  have hnb2 : trim (nlJoin (filterNonBlank (splitLines text))) ≠ [] := by
    intro h0
    have h1 := (trim_eq_nil_iff_filter _).1 h0
    rw [hlines2] at h1
    have h2 : filterNonBlank (splitLines text) = [] := by
      simpa using h1
    exact hnb ((trim_eq_nil_iff_filter text).2 h2)
  have Hgood2 : ∀ l ∈ (filterNonBlank (splitLines text)).map trim,
      trim l ≠ [] ∧ headerPatterns (trim l) = true ∧ (trim l).length ≤ 100 := by
    intro l hl
    rcases List.mem_map.1 hl with ⟨l0, hl0, rfl⟩
    obtain ⟨h1, h2, h3⟩ := Hgood l0 hl0
    exact ⟨by rw [trim_idem]; exact h1, by rw [trim_idem]; exact h2,
      by rw [trim_idem]; exact h3⟩
  have hpass2 := convertTextToHTML_headers
    (nlJoin (filterNonBlank (splitLines text))) hnb2 (by rw [hlines2]; exact Hgood2)
  rw [hstrip, hpass2, hlines2, headersHtml_map_trim, hpass1]

/-- C9 amended, witness: a two-heading document (an ALL-CAPS line and a
`Chapter` line) emits, strips and re-converts to the identical markup. -/
theorem roundTripForHeadingInputsWitness :
    convertTextToHTML
        (stripMarkup (convertTextToHTML "HELLO WORLD\nChapter 2".toList)) =
      convertTextToHTML "HELLO WORLD\nChapter 2".toList :=
  roundTripForHeadingInputs "HELLO WORLD\nChapter 2".toList (by decide) (by decide)

/-- C10: the output of the engine is a function of the non-blank lines of
the input alone; inserting or deleting whitespace-only lines anywhere never
changes the result. -/
theorem blankLineInsensitivity (t1 t2 : List Char)
    (h : filterNonBlank (splitLines t1) = filterNonBlank (splitLines t2)) :
    convertTextToHTML t1 = convertTextToHTML t2 := by
  by_cases h1 : trim t1 = []
  · have h2 : trim t2 = [] := by
      rw [trim_eq_nil_iff_filter] at h1 ⊢
      rw [← h, h1]
    simp [convertTextToHTML, h1, h2]
  · have h2 : trim t2 ≠ [] := by
      intro hc
      apply h1
      rw [trim_eq_nil_iff_filter] at hc ⊢
      rw [h, hc]
    rw [convertTextToHTML, convertTextToHTML, if_neg h1, if_neg h2]
    simp only [h]

/-- C10 witness: inserting a whitespace-only line into `"a\nb"` leaves the
output unchanged. -/
theorem blankLineInsensitivityWitness :
    convertTextToHTML "a\n \nb".toList = convertTextToHTML "a\nb".toList :=
  blankLineInsensitivity "a\n \nb".toList "a\nb".toList (by decide)

end UDC
